import Mathlib

/-!
Verification of the dispatch orchestrator of a WhatsApp bulk sender
(`wabot.py`): contact normalization and deduplication, the persistent
send ledger used for idempotent resumption, and the pacing /
circuit-breaker scheduler of `main`.

The Python functions are shallowly embedded as executable Lean
definitions.  File-system and UI effects are modelled explicitly:
the ledger file is a value, the per-contact send outcome and the
possibility of a ledger-write exception are oracles, and the run loop
produces a trace of events.
-/

namespace WABot

/-! ## Contact normalizer (`normalize_number`, wabot.py lines 41-50) -/

/-- Python `s.startswith(p)` on character lists. -/
def startsWithL : List Char → List Char → Bool
  | _, [] => true
  | [], _ :: _ => false
  | c :: cs, d :: ds => c == d && startsWithL cs ds

/-- Python `re.sub(r"\D+", "", s)`: keep only digit characters. -/
def stripNonDigits (s : List Char) : List Char :=
  s.filter Char.isDigit

/-- Python lines 45-46: `if s.startswith("0"): s = s.lstrip("0")`. -/
def pyLstripZeros (s : List Char) : List Char :=
  if startsWithL s ['0'] then s.dropWhile (fun c => c == '0') else s

/-- `normalize_number(raw, default_cc)` from wabot.py lines 41-50.
`none` models Python `None`. -/
def normalize_number (raw : Option String) (default_cc : String) : String :=
  match raw with
  | none => ""
  | some r =>
    let s := stripNonDigits r.data
    let s := pyLstripZeros s
    if s.length == 10 && !(startsWithL s default_cc.data) then
      String.mk (default_cc.data ++ s)
    else
      String.mk s

/-- The spec's wording of the algorithm: strip all non-digit characters,
strip leading zeros (unconditionally), and prepend the default country
code iff exactly 10 digits remain and they do not already start with
that code. -/
def normalize_spec (raw : Option String) (default_cc : String) : String :=
  match raw with
  | none => ""
  | some r =>
    let s := stripNonDigits r.data
    let s := s.dropWhile (fun c => c == '0')
    if s.length == 10 && !(startsWithL s default_cc.data) then
      String.mk (default_cc.data ++ s)
    else
      String.mk s

lemma pyLstripZeros_eq_dropWhile (s : List Char) :
    pyLstripZeros s = s.dropWhile (fun c => c == '0') := by
  cases s with
  | nil => rfl
  | cons c cs =>
    unfold pyLstripZeros
    by_cases h : c = '0'
    · subst h
      simp [startsWithL]
    · have hc : (c == '0') = false := by
        simp [h]
      simp [startsWithL, hc, List.dropWhile]

/-- Claim C3: `normalize_number` strips all non-digit characters, then
strips leading zeros, and prepends the default country code iff the
remaining digit string has exactly 10 digits and does not already start
with that code (i.e. it agrees with the spec's algorithm on every
input); in particular with default code "91" and input "09876543210"
the result is "919876543210". -/
theorem normalize_number_spec :
    (∀ (raw : Option String) (default_cc : String),
      normalize_number raw default_cc = normalize_spec raw default_cc) ∧
    normalize_number (some "09876543210") "91" = "919876543210" := by
  constructor
  · intro raw default_cc
    cases raw with
    | none => rfl
    | some r =>
      simp [normalize_number, normalize_spec, pyLstripZeros_eq_dropWhile]
  · rfl

/-! ## Contact loader (`load_contacts`, wabot.py lines 52-64) -/

/-- A raw spreadsheet row: `Name` (defaulted to `""` when the column is
absent) and the `Phone` cell, `none` modelling an empty cell. -/
structure Row where
  name : String
  phone : Option String
deriving DecidableEq

/-- A normalized contact as returned by `load_contacts`. -/
structure Contact where
  name : String
  phone : String
deriving DecidableEq

/-- Normalization of one row: `df["Phone"].apply(lambda x: normalize_number(x, default_cc))`. -/
def normRow (default_cc : String) (r : Row) : Contact :=
  { name := r.name, phone := normalize_number r.phone default_cc }

/-- Rows surviving the length filter
`df[df["PhoneNorm"].str.len() >= 10]` (the preceding `dropna` is a
no-op since `normalize_number` always returns a string). -/
def filteredNorm (rows : List Row) (default_cc : String) : List Contact :=
  (rows.map (normRow default_cc)).filter (fun c => 10 ≤ c.phone.length)

/-- `df.drop_duplicates(subset=["PhoneNorm"])`: keep the first row for
each phone, scanning left to right with the set `seen` of phones
already kept. -/
def dedupByPhone : List Contact → List String → List Contact
  | [], _ => []
  | c :: cs, seen =>
    if seen.contains c.phone then dedupByPhone cs seen
    else c :: dedupByPhone cs (c.phone :: seen)

/-- `load_contacts` from wabot.py lines 52-64: normalize, filter by
length, deduplicate keeping the first occurrence. -/
def load_contacts (rows : List Row) (default_cc : String) : List Contact :=
  dedupByPhone (filteredNorm rows default_cc) []

lemma dedupByPhone_sublist (l : List Contact) (seen : List String) :
    List.Sublist (dedupByPhone l seen) l := by
  induction l generalizing seen with
  | nil => simp [dedupByPhone]
  | cons c cs ih =>
    unfold dedupByPhone
    by_cases h : seen.contains c.phone
    · simp only [h, if_true]
      exact List.Sublist.cons c (ih seen)
    · simp only [h, if_false]
      exact List.Sublist.cons₂ c (ih (c.phone :: seen))

lemma dedupByPhone_not_seen (l : List Contact) (seen : List String) :
    ∀ c ∈ dedupByPhone l seen, seen.contains c.phone = false := by
  induction l generalizing seen with
  | nil => simp [dedupByPhone]
  | cons a cs ih =>
    intro c hc
    unfold dedupByPhone at hc
    by_cases h : seen.contains a.phone
    · simp only [h, if_true] at hc
      exact ih seen c hc
    · simp only [h, if_false] at hc
      rcases List.mem_cons.mp hc with rfl | hmem
      · simpa using h
      · have := ih (a.phone :: seen) c hmem
        simp only [List.contains_cons, Bool.or_eq_false_iff] at this
        exact this.2

lemma dedupByPhone_pairwise (l : List Contact) (seen : List String) :
    List.Pairwise (fun a b => a.phone ≠ b.phone) (dedupByPhone l seen) := by
  induction l generalizing seen with
  | nil => simp [dedupByPhone]
  | cons a cs ih =>
    unfold dedupByPhone
    by_cases h : seen.contains a.phone
    · simp only [h, if_true]
      exact ih seen
    · simp only [h, if_false]
      refine List.Pairwise.cons ?_ (ih (a.phone :: seen))
      intro b hb
      have := dedupByPhone_not_seen cs (a.phone :: seen) b hb
      simp only [List.contains_cons, Bool.or_eq_false_iff, beq_eq_false_iff_ne] at this
      exact fun hab => this.1 (hab ▸ rfl)

lemma dedupByPhone_complete (l : List Contact) (seen : List String) :
    ∀ x ∈ l, seen.contains x.phone = false →
      ∃ c ∈ dedupByPhone l seen, c.phone = x.phone := by
  induction l generalizing seen with
  | nil => simp
  | cons a cs ih =>
    intro x hx hseen
    unfold dedupByPhone
    rcases List.mem_cons.mp hx with rfl | hmem
    · simp only [hseen, if_false]
      exact ⟨x, List.mem_cons_self _ _, rfl⟩
    · by_cases h : seen.contains a.phone
      · simp only [h, if_true]
        exact ih seen x hmem hseen
      · simp only [h, if_false]
        by_cases hax : x.phone = a.phone
        · exact ⟨a, List.mem_cons_self _ _, hax.symm⟩
        · have hseen2 : (a.phone :: seen).contains x.phone = false := by
            simp only [List.contains_cons, Bool.or_eq_false_iff, beq_eq_false_iff_ne]
            exact ⟨hax, hseen⟩
          obtain ⟨c, hc, hcp⟩ := ih (a.phone :: seen) x hmem hseen2
          exact ⟨c, List.mem_cons_of_mem _ hc, hcp⟩

lemma dedupByPhone_keeps_first (l : List Contact) (seen : List String) :
    ∀ c ∈ dedupByPhone l seen,
      l.find? (fun y => y.phone == c.phone) = some c := by
  induction l generalizing seen with
  | nil => simp [dedupByPhone]
  | cons a cs ih =>
    intro c hc
    unfold dedupByPhone at hc
    by_cases h : seen.contains a.phone
    · simp only [h, if_true] at hc
      have hne : a.phone ≠ c.phone := by
        intro he
        have := dedupByPhone_not_seen cs seen c hc
        rw [← he] at this
        rw [h] at this
        exact Bool.true_eq_false.mp this
      rw [List.find?_cons]
      have : (a.phone == c.phone) = false := beq_eq_false_iff_ne.mpr hne
      simp only [this]
      exact ih seen c hc
    · simp only [h, if_false] at hc
      rcases List.mem_cons.mp hc with rfl | hmem
      · rw [List.find?_cons]
        simp
      · have hnotin := dedupByPhone_not_seen cs (a.phone :: seen) c hmem
        simp only [List.contains_cons, Bool.or_eq_false_iff, beq_eq_false_iff_ne] at hnotin
        rw [List.find?_cons]
        have : (a.phone == c.phone) = false :=
          beq_eq_false_iff_ne.mpr (fun he => hnotin.1 (he ▸ rfl))
        simp only [this]
        exact ih (a.phone :: seen) c hmem

/-- Claim C7: `load_contacts` drops every row whose normalized phone is
empty or shorter than 10 digits, deduplicates by normalized phone
keeping the first occurrence (retaining the first row's name), and
returns an ordered sublist of the filtered normalized rows in which
every surviving phone occurs exactly once. -/
theorem load_contacts_spec (rows : List Row) (default_cc : String) :
    List.Sublist (load_contacts rows default_cc) (filteredNorm rows default_cc) ∧
    List.Pairwise (fun a b => a.phone ≠ b.phone) (load_contacts rows default_cc) ∧
    (∀ c ∈ load_contacts rows default_cc, 10 ≤ c.phone.length) ∧
    (∀ x ∈ filteredNorm rows default_cc,
      ∃ c ∈ load_contacts rows default_cc, c.phone = x.phone) ∧
    (∀ c ∈ load_contacts rows default_cc,
      (filteredNorm rows default_cc).find? (fun y => y.phone == c.phone) = some c) := by
  refine ⟨dedupByPhone_sublist _ _, dedupByPhone_pairwise _ _, ?_, ?_, ?_⟩
  · intro c hc
    have hmem : c ∈ filteredNorm rows default_cc :=
      (dedupByPhone_sublist _ _).mem hc
    have := (List.mem_filter.mp hmem).2
    exact of_decide_eq_true this
  · intro x hx
    exact dedupByPhone_complete _ [] x hx rfl
  · exact dedupByPhone_keeps_first _ []

/-- Claim C7 witness: two rows normalizing to the same phone yield
exactly one entry whose name is the first row's. -/
theorem load_contacts_spec_witness :
    (Contact.mk "Alice" "919876543210") ∈
      load_contacts [Row.mk "Alice" (some "09876543210"), Row.mk "Bob" (some "9876543210")] "91" ∧
    (filteredNorm [Row.mk "Alice" (some "09876543210"), Row.mk "Bob" (some "9876543210")] "91").find?
        (fun y => y.phone == "919876543210") = some (Contact.mk "Alice" "919876543210") := by
  refine ⟨by decide, ?_⟩
  exact (load_contacts_spec
    [Row.mk "Alice" (some "09876543210"), Row.mk "Bob" (some "9876543210")] "91").2.2.2.2
    (Contact.mk "Alice" "919876543210") (by decide)

/-! ## Send ledger (`load_sent_log` lines 66-74, `append_log` lines 76-81) -/

/-- One parsed CSV record of the ledger. -/
structure LogEntry where
  timestamp : String
  phone : String
  status : String
  note : String
deriving DecidableEq

/-- The ledger file as `load_sent_log` sees it: absent
(`os.path.exists` false), present but unparsable (`pd.read_csv` or the
column accesses raise, caught by `except Exception`), or parsed into
records. -/
inductive LedgerFile where
  | absent
  | unparsable
  | parsed (entries : List LogEntry)
deriving DecidableEq

/-- `load_sent_log` from wabot.py lines 66-74: the set (modelled as a
list up to membership) of phones whose status is "sent". -/
def load_sent_log : LedgerFile → List String
  | .absent => []
  | .unparsable => []
  | .parsed entries =>
    (entries.filter (fun e => e.status == "sent")).map (fun e => e.phone)

/-- Claim C8: `load_sent_log` returns the empty set when the file is
absent, the empty set (rather than raising) when the file is
unparsable, and otherwise exactly the set of phone values whose status
is "sent". -/
theorem load_sent_log_spec :
    load_sent_log .absent = [] ∧
    load_sent_log .unparsable = [] ∧
    (∀ (entries : List LogEntry) (p : String),
      p ∈ load_sent_log (.parsed entries) ↔
        ∃ e ∈ entries, e.status = "sent" ∧ e.phone = p) := by
  refine ⟨rfl, rfl, ?_⟩
  intro entries p
  simp only [load_sent_log, List.mem_map, List.mem_filter, beq_iff_eq]
  constructor
  · rintro ⟨e, ⟨he, hst⟩, rfl⟩
    exact ⟨e, he, hst, rfl⟩
  · rintro ⟨e, he, hst, rfl⟩
    exact ⟨e, ⟨he, hst⟩, rfl⟩

/-- Header line written by `append_log` when the file did not exist. -/
def headerLine : String := "timestamp,phone,status,note\n"

/-- Python `note.replace(',', ';')`: map every comma to a semicolon. -/
def sanitizeNote (note : String) : String :=
  String.mk (note.data.map (fun c => if c = ',' then ';' else c))

/-- The single CSV record written by one `append_log` call. -/
def logRecord (timestamp phone status note : String) : String :=
  timestamp ++ "," ++ phone ++ "," ++ status ++ "," ++ sanitizeNote note ++ "\n"

/-- `append_log` from wabot.py lines 76-81 as a function on the file
contents: `none` models an absent file, `some c` a file with contents
`c` (`exists` is checked before opening for append). -/
def append_log (file : Option String) (timestamp phone status note : String) : String :=
  match file with
  | none => headerLine ++ logRecord timestamp phone status note
  | some contents => contents ++ logRecord timestamp phone status note

lemma count_newline_sanitizeNote (note : String) :
    (sanitizeNote note).data.count '\n' = note.data.count '\n' := by
  unfold sanitizeNote
  induction note.data with
  | nil => rfl
  | cons c cs ih =>
    by_cases h : c = ','
    · subst h
      simp only [List.map_cons, if_true]
      rw [List.count_cons, List.count_cons, ih]
      simp
    · simp only [List.map_cons, if_neg h]
      rw [List.count_cons, List.count_cons, ih]

lemma count_comma_sanitizeNote (note : String) :
    (sanitizeNote note).data.count ',' = 0 := by
  unfold sanitizeNote
  rw [List.count_eq_zero]
  intro hmem
  rcases List.mem_map.mp hmem with ⟨c, _, hc⟩
  by_cases h : c = ','
  · rw [if_pos h] at hc
    exact absurd hc (by decide)
  · rw [if_neg h] at hc
    exact h hc

lemma count_newline_logRecord (timestamp phone status note : String) :
    (logRecord timestamp phone status note).data.count '\n' =
      timestamp.data.count '\n' + phone.data.count '\n' +
        status.data.count '\n' + note.data.count '\n' + 1 := by
  unfold logRecord
  simp only [String.data_append, List.count_append]
  rw [count_newline_sanitizeNote]
  have h1 : (",".data).count '\n' = 0 := by decide
  have h2 : ("\n".data).count '\n' = 1 := by decide
  rw [h1, h2]
  ring

/-- Claim C6 counterexample: with a note containing an embedded newline
the record written by `append_log` spans two lines, so the
one-record-per-line invariant does not hold for every possible note
string. -/
theorem append_log_newline_cex :
    (logRecord "2024-01-01T00:00:00" "919876543210" "failed" "text_send_error: a\nb").data.count '\n' = 2 ∧
    append_log (some "previous\n") "2024-01-01T00:00:00" "919876543210" "failed" "text_send_error: a\nb" =
      "previous\n" ++ logRecord "2024-01-01T00:00:00" "919876543210" "failed" "text_send_error: a\nb" := by
  constructor
  · decide
  · rfl

/-- Claim C6 (amended): `append_log` writes the header line iff the
ledger file did not previously exist, appends exactly one record for
the call, and replaces every comma in the note with a semicolon; the
written record occupies exactly one line whenever the timestamp,
phone, status and note contain no newline characters (a note with an
embedded newline still breaks the one-record-per-line invariant). -/
theorem append_log_spec (timestamp phone status note : String) :
    append_log none timestamp phone status note =
      headerLine ++ logRecord timestamp phone status note ∧
    (∀ contents : String,
      append_log (some contents) timestamp phone status note =
        contents ++ logRecord timestamp phone status note) ∧
    (sanitizeNote note).data.count ',' = 0 ∧
    (timestamp.data.count '\n' = 0 → phone.data.count '\n' = 0 →
      status.data.count '\n' = 0 → note.data.count '\n' = 0 →
      (logRecord timestamp phone status note).data.count '\n' = 1) := by
  refine ⟨rfl, fun _ => rfl, count_comma_sanitizeNote note, ?_⟩
  intro h1 h2 h3 h4
  rw [count_newline_logRecord, h1, h2, h3, h4]

/-- Claim C6 witness: a comma-bearing, newline-free note yields a
single-line record with the commas replaced. -/
theorem append_log_spec_witness :
    (sanitizeNote "a,b,c").data.count ',' = 0 ∧
    (logRecord "2024-01-01T00:00:00" "919876543210" "sent" "a,b,c").data.count '\n' = 1 := by
  have h := append_log_spec "2024-01-01T00:00:00" "919876543210" "sent" "a,b,c"
  exact ⟨h.2.2.1, h.2.2.2 (by decide) (by decide) (by decide) (by decide)⟩

/-! ## Dispatch scheduler (`main` run loop, wabot.py lines 242-298)

The loop is embedded as a trace-producing recursion over the contact
list.  The send protocol is an oracle `outcome : phone → SendResult`
(the inner `try` of lines 260-267 already converts any exception of
the send call into `ok = False`).  The only statement of the loop body
that can raise an exception NOT caught by that `try` is the
`append_log` call (e.g. an I/O error); it is modelled by the oracle
`ledgerOk : phone → Bool`, and an exception there aborts the loop
without reaching `driver.quit()` (line 297 is not in a
`try`/`finally`). -/

/-- Scheduler-relevant configuration, after the `int(...)` coercions of
lines 223 and 226. -/
structure Config where
  batch_limit : Int
  long_every : Int
deriving DecidableEq

/-- Result of one send-protocol invocation: `(ok, note)`. -/
structure SendResult where
  ok : Bool
  note : String
deriving DecidableEq

/-- Observable events of one run of the loop. -/
inductive Event where
  | attempt (phone : String)
  | logWrite (phone : String) (status : String) (note : String)
  | sleepJitter
  | longPause
  | quitDriver
deriving DecidableEq

/-- Trace of a run, plus whether an exception escaped the loop body. -/
structure RunOut where
  events : List Event
  crashed : Bool
deriving DecidableEq

/-- `max(1, long_every)` from line 292. -/
def longPauseDivisor (long_every : Int) : Int := max 1 long_every

/-- Line 292: `sent_count > 0 and sent_count % max(1, long_every) == 0`. -/
def longPauseCond (sent_count : Nat) (long_every : Int) : Bool :=
  decide (0 < sent_count) &&
    decide ((sent_count : Int) % longPauseDivisor long_every = 0)

/-- The `for idx, row in contacts.iterrows()` loop of lines 249-295,
with the running `sent_count` and `failures_in_a_row` counters. -/
def processList (cfg : Config) (outcome : String → SendResult)
    (ledgerOk : String → Bool) (sent_already : List String) :
    List Contact → Nat → Nat → RunOut
  | [], _, _ => ⟨[Event.quitDriver], false⟩
  | c :: rest, sent_count, fails =>
    if sent_already.contains c.phone then
      processList cfg outcome ledgerOk sent_already rest sent_count fails
    else
      let r := outcome c.phone
      if ledgerOk c.phone = false then
        ⟨[Event.attempt c.phone], true⟩
      else
        let status := if r.ok then "sent" else "failed"
        let sc1 := if r.ok then sent_count + 1 else sent_count
        let fr1 := if r.ok then 0 else fails + 1
        let head := [Event.attempt c.phone, Event.logWrite c.phone status r.note]
        if (sc1 : Int) ≥ cfg.batch_limit then
          ⟨head ++ [Event.quitDriver], false⟩
        else if 5 ≤ fr1 then
          ⟨head ++ [Event.quitDriver], false⟩
        else
          let pauseEvs := if longPauseCond sc1 cfg.long_every then [Event.longPause] else []
          let tail := processList cfg outcome ledgerOk sent_already rest sc1 fr1
          ⟨head ++ [Event.sleepJitter] ++ pauseEvs ++ tail.events, tail.crashed⟩

/-- The whole run loop, starting from `sent_count = 0` and
`failures_in_a_row = 0` (lines 246-247) and ending at `driver.quit()`
(line 297). -/
def runMain (cfg : Config) (outcome : String → SendResult)
    (ledgerOk : String → Bool) (sent_already : List String)
    (contacts : List Contact) : RunOut :=
  processList cfg outcome ledgerOk sent_already contacts 0 0

def isAttempt : Event → Bool
  | .attempt _ => true
  | _ => false

def isSentWrite : Event → Bool
  | .logWrite _ status _ => status == "sent"
  | _ => false

def isLongPause : Event → Bool
  | .longPause => true
  | _ => false

/-- Number of send-protocol invocations in a trace. -/
def countAttempts (es : List Event) : Nat := es.countP isAttempt

/-- Number of ledger records with status "sent" written in a trace. -/
def countSentWrites (es : List Event) : Nat := es.countP isSentWrite

/-- Number of long pauses taken in a trace. -/
def countLongPauses (es : List Event) : Nat := es.countP isLongPause

/-- The contacts the loop actually processes: those not filtered by the
`if phone in sent_already: continue` of lines 253-254. -/
def eligible (sent_already : List String) (contacts : List Contact) : List Contact :=
  contacts.filter (fun c => !(sent_already.contains c.phone))

/-! ## Claim C1: idempotent resume -/

/-- Whether an event concerns the phone `p` (a send attempt or a ledger
write for `p`). -/
def mentionsPhone (p : String) : Event → Bool
  | .attempt q => q == p
  | .logWrite q _ _ => q == p
  | .sleepJitter => false
  | .longPause => false
  | .quitDriver => false

lemma mem_ite_pause {c : Prop} [Decidable c] {e : Event}
    (h : e ∈ if c then [Event.longPause] else ([] : List Event)) :
    e = Event.longPause := by
  split at h
  · simpa using h
  · simp at h

lemma processList_no_mention (cfg : Config) (outcome : String → SendResult)
    (ledgerOk : String → Bool) (sa : List String) (p : String)
    (hp : sa.contains p = true) :
    ∀ (contacts : List Contact) (sc fr : Nat) (e : Event),
      e ∈ (processList cfg outcome ledgerOk sa contacts sc fr).events →
      mentionsPhone p e = false := by
  intro contacts
  induction contacts with
  | nil =>
    intro sc fr e he
    simp only [processList, List.mem_singleton] at he
    subst he
    rfl
  | cons c rest ih =>
    intro sc fr e he
    by_cases hc : sa.contains c.phone = true
    · simp only [processList, if_pos hc] at he
      exact ih sc fr e he
    · have hcp : (c.phone == p) = false := by
        refine beq_eq_false_iff_ne.mpr fun he2 => hc ?_
        rw [he2]
        exact hp
      simp only [processList, if_neg hc] at he
      by_cases hio : ledgerOk c.phone = false
      · simp only [if_pos hio, List.mem_singleton] at he
        subst he
        simpa [mentionsPhone] using hcp
      · simp only [if_neg hio] at he
        split at he
        · split at he
          · simp only [List.mem_append, List.mem_cons, List.mem_singleton,
              List.not_mem_nil, or_false, or_assoc] at he
            rcases he with rfl | rfl | rfl <;> simp [mentionsPhone, hcp]
          · split at he
            · simp only [List.mem_append, List.mem_cons, List.mem_singleton,
                List.not_mem_nil, or_false, or_assoc] at he
              rcases he with rfl | rfl | rfl <;> simp [mentionsPhone, hcp]
            · simp only [List.append_assoc, List.mem_append, List.mem_cons,
                List.not_mem_nil, or_false, List.mem_singleton, or_assoc] at he
              rcases he with rfl | rfl | rfl | he | he
              · simp [mentionsPhone, hcp]
              · simp [mentionsPhone, hcp]
              · rfl
              · rw [mem_ite_pause he]
                rfl
              · exact ih _ _ e he
        · split at he
          · simp only [List.mem_append, List.mem_cons, List.mem_singleton,
              List.not_mem_nil, or_false, or_assoc] at he
            rcases he with rfl | rfl | rfl <;> simp [mentionsPhone, hcp]
          · split at he
            · simp only [List.mem_append, List.mem_cons, List.mem_singleton,
                List.not_mem_nil, or_false, or_assoc] at he
              rcases he with rfl | rfl | rfl <;> simp [mentionsPhone, hcp]
            · simp only [List.append_assoc, List.mem_append, List.mem_cons,
                List.not_mem_nil, or_false, List.mem_singleton, or_assoc] at he
              rcases he with rfl | rfl | rfl | he | he
              · simp [mentionsPhone, hcp]
              · simp [mentionsPhone, hcp]
              · rfl
              · rw [mem_ite_pause he]
                rfl
              · exact ih _ _ e he

/-- Claim C1: a run of the dispatcher over any contact list, with the
sent set loaded from a ledger produced by a prior run, never invokes
the per-contact step for a phone whose ledger status is "sent" (no
send attempt and no new ledger entry for it appears in the trace). -/
theorem run_skips_sent_phones (cfg : Config) (outcome : String → SendResult)
    (ledgerOk : String → Bool) (entries : List LogEntry)
    (contacts : List Contact) (p : String)
    (hp : ∃ e ∈ entries, e.status = "sent" ∧ e.phone = p) :
    Event.attempt p ∉
      (runMain cfg outcome ledgerOk (load_sent_log (.parsed entries)) contacts).events ∧
    ∀ status note, Event.logWrite p status note ∉
      (runMain cfg outcome ledgerOk (load_sent_log (.parsed entries)) contacts).events := by
  have hmem : p ∈ load_sent_log (.parsed entries) := by
    rcases hp with ⟨e, he, hst, hph⟩
    simp only [load_sent_log, List.mem_map, List.mem_filter, beq_iff_eq]
    exact ⟨e, ⟨he, hst⟩, hph⟩
  have hcont : (load_sent_log (.parsed entries)).contains p = true :=
    List.elem_eq_true_of_mem hmem
  constructor
  · intro habs
    have := processList_no_mention cfg outcome ledgerOk _ p hcont contacts 0 0 _ habs
    simp [mentionsPhone] at this
  · intro status note habs
    have := processList_no_mention cfg outcome ledgerOk _ p hcont contacts 0 0 _ habs
    simp [mentionsPhone] at this

/-- Claim C1 witness: a concrete second run with a one-entry "sent"
ledger never re-attempts that phone. -/
theorem run_skips_sent_phones_witness :
    Event.attempt "919876543210" ∉
      (runMain (Config.mk 500 30) (fun _ => SendResult.mk true "")
        (fun _ => true)
        (load_sent_log (.parsed [LogEntry.mk "t0" "919876543210" "sent" ""]))
        [Contact.mk "Alice" "919876543210", Contact.mk "Bob" "919811111111"]).events :=
  (run_skips_sent_phones (Config.mk 500 30) (fun _ => SendResult.mk true "")
    (fun _ => true) [LogEntry.mk "t0" "919876543210" "sent" ""]
    [Contact.mk "Alice" "919876543210", Contact.mk "Bob" "919811111111"]
    "919876543210"
    ⟨LogEntry.mk "t0" "919876543210" "sent" "", by decide, by decide, by decide⟩).1

/-! ## Claim C2: consecutive-failure circuit breaker -/

lemma countAttempts_append (a b : List Event) :
    countAttempts (a ++ b) = countAttempts a + countAttempts b :=
  List.countP_append _ _ _

lemma countAttempts_pause {c : Prop} [Decidable c] :
    countAttempts (if c then [Event.longPause] else []) = 0 := by
  split <;> rfl

/-- Scanning an outcome sequence with the consecutive-failure counter
starting at `fr`, the counter stays below 5 throughout. -/
def streakOk : Nat → List Bool → Bool
  | _, [] => true
  | fr, b :: rest =>
    let fr1 := if b then 0 else fr + 1
    decide (fr1 < 5) && streakOk fr1 rest

lemma processList_allfail_bound (cfg : Config) (outcome : String → SendResult)
    (ledgerOk : String → Bool) (sa : List String)
    (hfail : ∀ p, (outcome p).ok = false) :
    ∀ (contacts : List Contact) (sc fr : Nat), fr ≤ 4 →
      countAttempts (processList cfg outcome ledgerOk sa contacts sc fr).events + fr ≤ 5 := by
  intro contacts
  induction contacts with
  | nil =>
    intro sc fr hfr
    simp only [processList]
    simp [countAttempts, List.countP_cons, List.countP_nil, isAttempt]
    omega
  | cons c rest ih =>
    intro sc fr hfr
    by_cases hc : sa.contains c.phone = true
    · simp only [processList, if_pos hc]
      exact ih sc fr hfr
    · simp only [processList, if_neg hc]
      by_cases hio : ledgerOk c.phone = false
      · simp only [if_pos hio]
        simp [countAttempts, List.countP_cons, List.countP_nil, isAttempt]
        omega
      · simp only [if_neg hio]
        split
        next hok =>
          rw [hfail c.phone] at hok
          exact absurd hok (by simp)
        next hok =>
          split
          next hb =>
            simp [countAttempts, List.countP_cons, List.countP_nil, isAttempt]
            omega
          next hb =>
            split
            next hbrk =>
              simp [countAttempts, List.countP_cons, List.countP_nil, isAttempt]
              omega
            next hbrk =>
              have hfr1 : fr + 1 ≤ 4 := by omega
              have htail := ih sc (fr + 1) hfr1
              simp only [countAttempts_append, countAttempts_pause]
              simp [countAttempts, List.countP_cons, List.countP_nil, isAttempt] at htail ⊢
              omega

lemma eligible_cons_skip (sa : List String) (c : Contact) (rest : List Contact)
    (hc : sa.contains c.phone = true) :
    eligible sa (c :: rest) = eligible sa rest := by
  have h : (!(sa.contains c.phone)) = false := by
    rw [hc]
    rfl
  simp only [eligible, List.filter_cons, h]
  simp

lemma eligible_cons_keep (sa : List String) (c : Contact) (rest : List Contact)
    (hc : ¬ sa.contains c.phone = true) :
    eligible sa (c :: rest) = c :: eligible sa rest := by
  have hc2 : sa.contains c.phone = false := Bool.eq_false_iff.mpr hc
  have h : (!(sa.contains c.phone)) = true := by
    rw [hc2]
    rfl
  simp only [eligible, List.filter_cons, h]
  simp

lemma processList_no_early_halt (cfg : Config) (outcome : String → SendResult)
    (ledgerOk : String → Bool) (sa : List String)
    (hledger : ∀ p, ledgerOk p = true) :
    ∀ (contacts : List Contact) (sc fr : Nat),
      streakOk fr ((eligible sa contacts).map (fun c => (outcome c.phone).ok)) = true →
      (sc : Int) + ((eligible sa contacts).map (fun c => (outcome c.phone).ok)).count true < cfg.batch_limit →
      countAttempts (processList cfg outcome ledgerOk sa contacts sc fr).events
        = (eligible sa contacts).length := by
  intro contacts
  induction contacts with
  | nil =>
    intro sc fr _ _
    simp [processList, eligible, countAttempts, List.countP_cons, List.countP_nil, isAttempt]
  | cons c rest ih =>
    intro sc fr hstreak hcount
    by_cases hc : sa.contains c.phone = true
    · rw [eligible_cons_skip sa c rest hc] at hstreak hcount ⊢
      simp only [processList, if_pos hc]
      exact ih sc fr hstreak hcount
    · rw [eligible_cons_keep sa c rest hc] at hstreak hcount ⊢
      have hio : ¬ (ledgerOk c.phone = false) := by
        simp [hledger c.phone]
      simp only [processList, if_neg hc, if_neg hio]
      simp only [List.map_cons, streakOk, Bool.and_eq_true, decide_eq_true_eq] at hstreak
      obtain ⟨hlt, hrest⟩ := hstreak
      simp only [List.map_cons, List.count_cons] at hcount
      split
      next hok =>
        simp only [hok] at hlt hrest hcount
        simp only [if_true] at hlt hrest hcount
        simp at hcount
        have hb : ¬ ((sc + 1 : Nat) : Int) ≥ cfg.batch_limit := by
          push_cast at hcount ⊢
          omega
        rw [if_neg hb]
        have hbrk : ¬ ((5 : Nat) ≤ 0) := by omega
        rw [if_neg hbrk]
        have htail := ih (sc + 1) 0 hrest (by
          push_cast at hcount ⊢
          omega)
        simp only [countAttempts_append, countAttempts_pause]
        simp [countAttempts, List.countP_cons, List.countP_nil, isAttempt] at htail ⊢
        omega
      next hok =>
        have hok2 : (outcome c.phone).ok = false := Bool.eq_false_iff.mpr hok
        simp only [hok2] at hlt hrest hcount
        simp only [Bool.false_eq_true, if_false] at hlt hrest hcount
        simp at hcount
        have hb : ¬ ((sc : Nat) : Int) ≥ cfg.batch_limit := by
          omega
        rw [if_neg hb]
        have hbrk : ¬ ((5 : Nat) ≤ fr + 1) := by omega
        rw [if_neg hbrk]
        have htail := ih sc (fr + 1) hrest (by omega)
        simp only [countAttempts_append, countAttempts_pause]
        simp [countAttempts, List.countP_cons, List.countP_nil, isAttempt] at htail ⊢
        omega

/-- Claim C2: after 5 consecutive failed send attempts with no
intervening success the scheduler halts before attempting a 6th
contact (at most 5 send-protocol invocations occur when every attempt
fails); and it does not halt on the failure breaker earlier than that
when successes interrupt every failure streak before it reaches 5 (if
no 5 consecutive failures occur and the batch limit is never reached,
every eligible contact is attempted). -/
theorem circuit_breaker_spec (cfg : Config) (outcome : String → SendResult)
    (ledgerOk : String → Bool) (sa : List String) (contacts : List Contact) :
    ((∀ p, (outcome p).ok = false) →
      countAttempts (runMain cfg outcome ledgerOk sa contacts).events ≤ 5) ∧
    ((∀ p, ledgerOk p = true) →
      streakOk 0 ((eligible sa contacts).map (fun c => (outcome c.phone).ok)) = true →
      ((((eligible sa contacts).map (fun c => (outcome c.phone).ok)).count true : Nat) : Int) < cfg.batch_limit →
      countAttempts (runMain cfg outcome ledgerOk sa contacts).events = (eligible sa contacts).length) := by
  constructor
  · intro hfail
    have := processList_allfail_bound cfg outcome ledgerOk sa hfail contacts 0 0 (by omega)
    simpa [runMain] using this
  · intro hledger hstreak hcount
    refine processList_no_early_halt cfg outcome ledgerOk sa hledger contacts 0 0 hstreak ?_
    simpa using hcount

/-- Claim C2 witness: six all-failing contacts produce at most 5
attempts, while a 9-contact run whose failure streaks are broken by a
success at position 5 attempts all 9 contacts. -/
theorem circuit_breaker_spec_witness :
    countAttempts (runMain (Config.mk 500 30) (fun _ => SendResult.mk false "err")
      (fun _ => true) []
      [Contact.mk "a" "911", Contact.mk "b" "912", Contact.mk "c" "913",
       Contact.mk "d" "914", Contact.mk "e" "915", Contact.mk "f" "916"]).events ≤ 5 ∧
    countAttempts (runMain (Config.mk 500 30)
      (fun p => SendResult.mk (p == "s5") "")
      (fun _ => true) []
      [Contact.mk "a" "f1", Contact.mk "b" "f2", Contact.mk "c" "f3",
       Contact.mk "d" "f4", Contact.mk "e" "s5", Contact.mk "f" "f6",
       Contact.mk "g" "f7", Contact.mk "h" "f8", Contact.mk "i" "f9"]).events = 9 := by
  constructor
  · exact (circuit_breaker_spec (Config.mk 500 30) (fun _ => SendResult.mk false "err")
      (fun _ => true) []
      [Contact.mk "a" "911", Contact.mk "b" "912", Contact.mk "c" "913",
       Contact.mk "d" "914", Contact.mk "e" "915", Contact.mk "f" "916"]).1
      (fun _ => rfl)
  · refine (circuit_breaker_spec (Config.mk 500 30)
      (fun p => SendResult.mk (p == "s5") "")
      (fun _ => true) []
      [Contact.mk "a" "f1", Contact.mk "b" "f2", Contact.mk "c" "f3",
       Contact.mk "d" "f4", Contact.mk "e" "s5", Contact.mk "f" "f6",
       Contact.mk "g" "f7", Contact.mk "h" "f8", Contact.mk "i" "f9"]).2
      (fun _ => rfl) (by decide) (by decide)

/-! ## Claim C4: batch limit -/

lemma countSentWrites_append (a b : List Event) :
    countSentWrites (a ++ b) = countSentWrites a + countSentWrites b :=
  List.countP_append _ _ _

lemma countSentWrites_pause {c : Prop} [Decidable c] :
    countSentWrites (if c then [Event.longPause] else []) = 0 := by
  split <;> rfl

lemma processList_allok_counts (cfg : Config) (outcome : String → SendResult)
    (ledgerOk : String → Bool) (sa : List String)
    (hok : ∀ p, (outcome p).ok = true) (hledger : ∀ p, ledgerOk p = true) :
    ∀ (contacts : List Contact) (sc fr : Nat), (sc : Int) < cfg.batch_limit →
      countSentWrites (processList cfg outcome ledgerOk sa contacts sc fr).events
        = min (cfg.batch_limit.toNat - sc) (eligible sa contacts).length ∧
      countAttempts (processList cfg outcome ledgerOk sa contacts sc fr).events
        = min (cfg.batch_limit.toNat - sc) (eligible sa contacts).length := by
  intro contacts
  induction contacts with
  | nil =>
    intro sc fr hsc
    simp [processList, eligible, countSentWrites, countAttempts,
      List.countP_cons, List.countP_nil, isSentWrite, isAttempt]
  | cons c rest ih =>
    intro sc fr hsc
    by_cases hc : sa.contains c.phone = true
    · rw [eligible_cons_skip sa c rest hc]
      simp only [processList, if_pos hc]
      exact ih sc fr hsc
    · rw [eligible_cons_keep sa c rest hc]
      have hio : ¬ (ledgerOk c.phone = false) := by
        simp [hledger c.phone]
      simp only [processList, if_neg hc, if_neg hio]
      split
      next hokk =>
        split
        next hb =>
          have hble : cfg.batch_limit = (sc : Int) + 1 := by omega
          constructor <;>
            · simp [countSentWrites, countAttempts, List.countP_cons, List.countP_nil,
                isSentWrite, isAttempt]
              omega
        next hb =>
          have hbrk : ¬ ((5 : Nat) ≤ 0) := by omega
          rw [if_neg hbrk]
          have htail := ih (sc + 1) 0 (by push_cast at hb ⊢; omega)
          constructor
          · simp only [countSentWrites_append, countSentWrites_pause]
            simp [countSentWrites, List.countP_cons, List.countP_nil, isSentWrite] at htail ⊢
            push_cast at hb
            omega
          · simp only [countAttempts_append, countAttempts_pause]
            simp [countAttempts, List.countP_cons, List.countP_nil, isAttempt] at htail ⊢
            push_cast at hb
            omega
      next hokk =>
        rw [hok c.phone] at hokk
        exact absurd rfl hokk

/-- Claim C4: with `batch_limit = 3` and 10 eligible contacts whose
send attempts all succeed, the run writes exactly 3 ledger entries
with status "sent" and then halts (3 attempts, trace ending in the
driver shutdown); in general, when every attempt succeeds, the
scheduler performs exactly `min batch_limit #eligible` attempts and
"sent" writes, stopping as soon as `sent_count` reaches
`batch_limit`. -/
theorem batch_limit_spec (cfg : Config) (outcome : String → SendResult)
    (ledgerOk : String → Bool) (sa : List String) (contacts : List Contact) :
    ((∀ p, (outcome p).ok = true) → (∀ p, ledgerOk p = true) →
      1 ≤ cfg.batch_limit →
      countSentWrites (runMain cfg outcome ledgerOk sa contacts).events
        = min cfg.batch_limit.toNat (eligible sa contacts).length ∧
      countAttempts (runMain cfg outcome ledgerOk sa contacts).events
        = min cfg.batch_limit.toNat (eligible sa contacts).length) ∧
    (countSentWrites (runMain (Config.mk 3 30) (fun _ => SendResult.mk true "")
        (fun _ => true) []
        [Contact.mk "n1" "q01", Contact.mk "n2" "q02", Contact.mk "n3" "q03",
         Contact.mk "n4" "q04", Contact.mk "n5" "q05", Contact.mk "n6" "q06",
         Contact.mk "n7" "q07", Contact.mk "n8" "q08", Contact.mk "n9" "q09",
         Contact.mk "n10" "q10"]).events = 3 ∧
      countAttempts (runMain (Config.mk 3 30) (fun _ => SendResult.mk true "")
        (fun _ => true) []
        [Contact.mk "n1" "q01", Contact.mk "n2" "q02", Contact.mk "n3" "q03",
         Contact.mk "n4" "q04", Contact.mk "n5" "q05", Contact.mk "n6" "q06",
         Contact.mk "n7" "q07", Contact.mk "n8" "q08", Contact.mk "n9" "q09",
         Contact.mk "n10" "q10"]).events = 3 ∧
      (runMain (Config.mk 3 30) (fun _ => SendResult.mk true "")
        (fun _ => true) []
        [Contact.mk "n1" "q01", Contact.mk "n2" "q02", Contact.mk "n3" "q03",
         Contact.mk "n4" "q04", Contact.mk "n5" "q05", Contact.mk "n6" "q06",
         Contact.mk "n7" "q07", Contact.mk "n8" "q08", Contact.mk "n9" "q09",
         Contact.mk "n10" "q10"]).events.getLast? = some Event.quitDriver) := by
  constructor
  · intro hok hledger hbl
    have h := processList_allok_counts cfg outcome ledgerOk sa hok hledger contacts 0 0
      (by omega)
    simpa [runMain] using h
  · refine ⟨by decide, by decide, by decide⟩

/-- Claim C4 witness: the general count law applied to a 5-contact
all-success run with batch limit 2 yields exactly 2 sent writes. -/
theorem batch_limit_spec_witness :
    countSentWrites (runMain (Config.mk 2 30) (fun _ => SendResult.mk true "")
      (fun _ => true) []
      [Contact.mk "a" "w1", Contact.mk "b" "w2", Contact.mk "c" "w3",
       Contact.mk "d" "w4", Contact.mk "e" "w5"]).events = 2 := by
  have h := (batch_limit_spec (Config.mk 2 30) (fun _ => SendResult.mk true "")
    (fun _ => true) []
    [Contact.mk "a" "w1", Contact.mk "b" "w2", Contact.mk "c" "w3",
     Contact.mk "d" "w4", Contact.mk "e" "w5"]).1
    (fun _ => rfl) (fun _ => rfl) (by decide)
  rw [h.1]
  decide

/-! ## Claim C5: long-pause timing -/

lemma countLongPauses_append (a b : List Event) :
    countLongPauses (a ++ b) = countLongPauses a + countLongPauses b :=
  List.countP_append _ _ _

lemma countLongPauses_pause {c : Prop} [Decidable c] :
    countLongPauses (if c then [Event.longPause] else []) = if c then 1 else 0 := by
  split <;> rfl

lemma longPauseDivisor_pos (long_every : Int) : 0 < longPauseDivisor long_every :=
  lt_of_lt_of_le zero_lt_one (le_max_left _ _)

lemma longPauseCond_eq_dvd (n : Nat) (long_every : Int) :
    longPauseCond n long_every =
      (decide (0 < n) && decide ((longPauseDivisor long_every).toNat ∣ n)) := by
  unfold longPauseCond
  congr 1
  rw [decide_eq_decide]
  have hpos := longPauseDivisor_pos long_every
  have hcast : ((longPauseDivisor long_every).toNat : Int) = longPauseDivisor long_every :=
    Int.toNat_of_nonneg hpos.le
  constructor
  · intro h
    have h1 : ((n : Int) % ((longPauseDivisor long_every).toNat : Int)) = 0 := by
      rw [hcast]
      exact h
    rw [← Int.natCast_mod] at h1
    have h2 : n % (longPauseDivisor long_every).toNat = 0 := by
      exact_mod_cast h1
    exact Nat.dvd_of_mod_eq_zero h2
  · intro h
    obtain ⟨k, rfl⟩ := h
    have h2 : (longPauseDivisor long_every).toNat * k % (longPauseDivisor long_every).toNat = 0 :=
      Nat.mul_mod_right _ _
    have h1 : (((longPauseDivisor long_every).toNat * k : Nat) : Int)
        % ((longPauseDivisor long_every).toNat : Int) = 0 := by
      rw [← Int.natCast_mod, h2]
      rfl
    rw [hcast] at h1
    exact h1

lemma processList_allok_pauses (cfg : Config) (outcome : String → SendResult)
    (ledgerOk : String → Bool) (sa : List String)
    (hok : ∀ p, (outcome p).ok = true) (hledger : ∀ p, ledgerOk p = true) :
    ∀ (contacts : List Contact) (sc fr : Nat),
      ((sc + (eligible sa contacts).length : Nat) : Int) < cfg.batch_limit →
      countLongPauses (processList cfg outcome ledgerOk sa contacts sc fr).events
        = (sc + (eligible sa contacts).length) / (longPauseDivisor cfg.long_every).toNat
            - sc / (longPauseDivisor cfg.long_every).toNat := by
  intro contacts
  induction contacts with
  | nil =>
    intro sc fr _
    simp [processList, eligible, countLongPauses,
      List.countP_cons, List.countP_nil, isLongPause]
  | cons c rest ih =>
    intro sc fr hsc
    by_cases hc : sa.contains c.phone = true
    · rw [eligible_cons_skip sa c rest hc] at hsc ⊢
      simp only [processList, if_pos hc]
      exact ih sc fr hsc
    · rw [eligible_cons_keep sa c rest hc] at hsc ⊢
      have hio : ¬ (ledgerOk c.phone = false) := by
        simp [hledger c.phone]
      simp only [processList, if_neg hc, if_neg hio]
      split
      next hokk =>
        simp only [List.length_cons] at hsc
        have hb : ¬ ((sc + 1 : Nat) : Int) ≥ cfg.batch_limit := by
          push_cast at hsc ⊢
          omega
        rw [if_neg hb]
        have hbrk : ¬ ((5 : Nat) ≤ 0) := by omega
        rw [if_neg hbrk]
        have hrearr : sc + ((eligible sa rest).length + 1) = (sc + 1) + (eligible sa rest).length := by
          omega
        have htail := ih (sc + 1) 0 (by push_cast at hsc ⊢; omega)
        have hhead : countLongPauses
            [Event.attempt c.phone, Event.logWrite c.phone "sent" (outcome c.phone).note] = 0 := rfl
        have hjit : countLongPauses [Event.sleepJitter] = 0 := rfl
        simp only [countLongPauses_append, countLongPauses_pause]
        rw [hhead, hjit, htail]
        simp only [List.length_cons]
        rw [hrearr]
        have hsucc : (sc + 1) / (longPauseDivisor cfg.long_every).toNat
            = sc / (longPauseDivisor cfg.long_every).toNat
              + if (longPauseDivisor cfg.long_every).toNat ∣ (sc + 1) then 1 else 0 :=
          Nat.succ_div sc (longPauseDivisor cfg.long_every).toNat
        have hmono : (sc + 1) / (longPauseDivisor cfg.long_every).toNat
            ≤ ((sc + 1) + (eligible sa rest).length) / (longPauseDivisor cfg.long_every).toNat :=
          Nat.div_le_div_right (by omega)
        simp only [longPauseCond_eq_dvd]
        by_cases hd : (longPauseDivisor cfg.long_every).toNat ∣ (sc + 1)
        · rw [if_pos (by simp [hd])]
          rw [if_pos hd] at hsucc
          omega
        · rw [if_neg (by simp [hd])]
          rw [if_neg hd] at hsucc
          omega
      next hokk =>
        rw [hok c.phone] at hokk
        exact absurd rfl hokk

/-- Claim C5 counterexample: with `long_pause_every = 1`, a run with
one successful send followed by one failed attempt takes the long
pause twice although only one successful send occurred — the pause
also fires after the failed attempt, contradicting "at no other point
of the run". -/
theorem long_pause_cex :
    countLongPauses (runMain (Config.mk 500 1)
      (fun p => SendResult.mk (p == "ok1") "")
      (fun _ => true) []
      [Contact.mk "a" "ok1", Contact.mk "b" "bad2"]).events = 2 ∧
    countSentWrites (runMain (Config.mk 500 1)
      (fun p => SendResult.mk (p == "ok1") "")
      (fun _ => true) []
      [Contact.mk "a" "ok1", Contact.mk "b" "bad2"]).events = 1 := by
  constructor <;> decide

/-- Claim C5 (amended): in a run where every attempt succeeds, no
ledger write fails and the batch limit is never reached, the long
pause is taken exactly once per `long_pause_every`-th successful send
(`⌊sends / max(1, long_pause_every)⌋` times in total); in general the
pause point is reached after any processed contact — also a failed
one — whenever `sent_count` is positive and divisible by
`max(1, long_pause_every)`. -/
theorem long_pause_spec (cfg : Config) (outcome : String → SendResult)
    (ledgerOk : String → Bool) (sa : List String) (contacts : List Contact)
    (hok : ∀ p, (outcome p).ok = true) (hledger : ∀ p, ledgerOk p = true)
    (hbl : (((eligible sa contacts).length : Nat) : Int) < cfg.batch_limit) :
    countLongPauses (runMain cfg outcome ledgerOk sa contacts).events
      = (eligible sa contacts).length / (longPauseDivisor cfg.long_every).toNat := by
  have h := processList_allok_pauses cfg outcome ledgerOk sa hok hledger contacts 0 0
    (by simpa using hbl)
  simpa [runMain] using h

/-- Claim C5 witness: seven all-success contacts with
`long_pause_every = 3` take exactly 2 long pauses. -/
theorem long_pause_spec_witness :
    countLongPauses (runMain (Config.mk 500 3) (fun _ => SendResult.mk true "")
      (fun _ => true) []
      [Contact.mk "a" "z1", Contact.mk "b" "z2", Contact.mk "c" "z3",
       Contact.mk "d" "z4", Contact.mk "e" "z5", Contact.mk "f" "z6",
       Contact.mk "g" "z7"]).events = 2 := by
  have h := long_pause_spec (Config.mk 500 3) (fun _ => SendResult.mk true "")
    (fun _ => true) []
    [Contact.mk "a" "z1", Contact.mk "b" "z2", Contact.mk "c" "z3",
     Contact.mk "d" "z4", Contact.mk "e" "z5", Contact.mk "f" "z6",
     Contact.mk "g" "z7"] (fun _ => rfl) (fun _ => rfl) (by decide)
  rw [h]
  decide

/-! ## Claim C9: driver shutdown -/

lemma getLast?_append_some {x : Event} :
    ∀ (a b : List Event), b.getLast? = some x → (a ++ b).getLast? = some x := by
  intro a
  induction a with
  | nil =>
    intro b h
    simpa using h
  | cons c a ih =>
    intro b h
    have hne : a ++ b ≠ [] := by
      intro hnil
      rcases List.append_eq_nil.mp hnil with ⟨rfl, rfl⟩
      simp at h
    rw [List.cons_append]
    cases hab : a ++ b with
    | nil => exact absurd hab hne
    | cons y ys =>
      rw [List.getLast?_cons_cons, ← hab]
      exact ih b h

lemma processList_quit_last (cfg : Config) (outcome : String → SendResult)
    (ledgerOk : String → Bool) (sa : List String) :
    ∀ (contacts : List Contact) (sc fr : Nat),
      (processList cfg outcome ledgerOk sa contacts sc fr).crashed = false →
      (processList cfg outcome ledgerOk sa contacts sc fr).events.getLast?
        = some Event.quitDriver := by
  intro contacts
  induction contacts with
  | nil =>
    intro sc fr _
    rfl
  | cons c rest ih =>
    intro sc fr
    by_cases hc : sa.contains c.phone = true
    · simp only [processList, if_pos hc]
      exact ih sc fr
    · simp only [processList, if_neg hc]
      by_cases hio : ledgerOk c.phone = false
      · simp only [if_pos hio]
        intro h
        simp at h
      · simp only [if_neg hio]
        split
        next =>
          split
          next =>
            intro _
            exact getLast?_append_some _ _ rfl
          next =>
            split
            next =>
              intro _
              exact getLast?_append_some _ _ rfl
            next =>
              intro h
              exact getLast?_append_some _ _ (ih _ _ h)
        next =>
          split
          next =>
            intro _
            exact getLast?_append_some _ _ rfl
          next =>
            split
            next =>
              intro _
              exact getLast?_append_some _ _ rfl
            next =>
              intro h
              exact getLast?_append_some _ _ (ih _ _ h)

/-- Claim C9 counterexample: when the ledger write for the first
contact raises (an exception escaping the loop body, since
`append_log` is outside the per-contact `try`), the run ends without
ever reaching `driver.quit()` — the session is not closed on that
termination path. -/
theorem driver_quit_cex :
    (runMain (Config.mk 500 30) (fun _ => SendResult.mk true "")
      (fun _ => false) [] [Contact.mk "a" "x1"]).crashed = true ∧
    Event.quitDriver ∉ (runMain (Config.mk 500 30) (fun _ => SendResult.mk true "")
      (fun _ => false) [] [Contact.mk "a" "x1"]).events := by
  constructor
  · rfl
  · decide

/-- Claim C9 (amended): on every termination of the run loop in which
no exception escapes the loop body — contacts exhausted, batch limit
reached, or circuit breaker tripped — the trace ends with the driver
shutdown; an exception escaping the loop body (e.g. a failing ledger
write) bypasses `driver.quit()`, which is not in a `finally` block. -/
theorem driver_quit_spec (cfg : Config) (outcome : String → SendResult)
    (ledgerOk : String → Bool) (sa : List String) (contacts : List Contact)
    (h : (runMain cfg outcome ledgerOk sa contacts).crashed = false) :
    (runMain cfg outcome ledgerOk sa contacts).events.getLast?
      = some Event.quitDriver :=
  processList_quit_last cfg outcome ledgerOk sa contacts 0 0 h

/-- Claim C9 witness: a crash-free two-contact run ends with the
driver shutdown event. -/
theorem driver_quit_spec_witness :
    (runMain (Config.mk 500 30) (fun _ => SendResult.mk true "")
      (fun _ => true) [] [Contact.mk "a" "y1", Contact.mk "b" "y2"]).events.getLast?
      = some Event.quitDriver :=
  driver_quit_spec (Config.mk 500 30) (fun _ => SendResult.mk true "")
    (fun _ => true) [] [Contact.mk "a" "y1", Contact.mk "b" "y2"] (by decide)

/-! ## Claim C10: modulo-by-zero safety of the long-pause check -/

/-- Claim C10: the long-pause divisor `max(1, long_every)` is never
zero, so the modulo in the long-pause condition is never a modulo by
zero; for a non-positive `long_every` the condition behaves exactly as
with `long_every = 1`, i.e. it fires after any processed contact once
at least one send has succeeded. -/
theorem long_pause_divisor_spec (long_every : Int) :
    longPauseDivisor long_every ≠ 0 ∧
    (long_every ≤ 0 → ∀ sc : Nat, longPauseCond sc long_every = longPauseCond sc 1) ∧
    (∀ sc : Nat, longPauseCond sc 1 = decide (0 < sc)) := by
  refine ⟨(longPauseDivisor_pos long_every).ne', ?_, ?_⟩
  · intro hle sc
    have h1 : longPauseDivisor long_every = 1 := by
      unfold longPauseDivisor
      exact max_eq_left (by omega)
    have h2 : longPauseDivisor 1 = 1 := by
      unfold longPauseDivisor
      exact max_eq_left le_rfl
    unfold longPauseCond
    rw [h1, h2]
  · intro sc
    have h2 : longPauseDivisor 1 = 1 := by
      unfold longPauseDivisor
      exact max_eq_left le_rfl
    unfold longPauseCond
    rw [h2]
    simp [Int.emod_one]

/-- Claim C10 witness: with the non-positive setting `-3` the divisor
is nonzero and the condition at `sent_count = 2` agrees with the
`long_every = 1` behavior. -/
theorem long_pause_divisor_spec_witness :
    longPauseDivisor (-3) ≠ 0 ∧ longPauseCond 2 (-3) = longPauseCond 2 1 :=
  ⟨(long_pause_divisor_spec (-3)).1,
    (long_pause_divisor_spec (-3)).2.1 (by norm_num) 2⟩

end WABot
